import Mathlib

/-!
Verification of the line-oriented HTTP/1.1 request parser and response
encoder of `swagftw/httplib` (src/main.go).

Strings are modelled as `List Char` (`Str`), mirroring Go strings over
ASCII input.  The Go `map[string]string` header map is modelled as an
association list with in-place replacement (`upsert`), which matches the
observable behaviour of map assignment (last write wins, keys unique).
Each mutating Go method becomes a Lean function returning the updated
value; `Request.parse`, which mutates its receiver and returns an
`error`, becomes a function returning the updated `Request` paired with
an optional error.  On every Go error path the receiver is untouched,
which the model reflects by returning the input record unchanged.
-/

abbrev Str := List Char

/-- Model of Go `strings.ToLower` restricted to ASCII: map each of
`A`..`Z` to its lower-case counterpart, leave everything else alone. -/
def lowerChar (c : Char) : Char :=
  if 'A' ≤ c ∧ c ≤ 'Z' then Char.ofNat (c.toNat + 32) else c

/-- Model of Go `strings.ToLower` on a whole string. -/
def lowerStr (s : Str) : Str := s.map lowerChar

/-- Model of Go `strings.Split(s, sep)` for a single-character separator
`c`: split at every occurrence of `c`; the empty string yields one empty
field, matching `strings.Split("", " ") = [""]`. -/
def splitCh (c : Char) : Str → List Str
  | [] => [[]]
  | x :: xs =>
    if x = c then [] :: splitCh c xs
    else
      match splitCh c xs with
      | [] => [[x]]
      | r :: rs => (x :: r) :: rs

/-- Locate the first occurrence of the two-character separator `": "`
(colon, space) in a string, returning the parts before and after it, or
`none` when the separator does not occur.  Go
`strings.SplitN(line, ": ", 2)` returns `[pre, post]` exactly when this
returns `some (pre, post)`, and `[line]` when it returns `none`. -/
def splitFirstCS : Str → Option (Str × Str)
  | [] => none
  | [_] => none
  | c₁ :: c₂ :: rest =>
    if c₁ = ':' ∧ c₂ = ' ' then some ([], rest)
    else (splitFirstCS (c₂ :: rest)).map fun p => (c₁ :: p.1, p.2)

/-- Insert or replace a key in an association list, keeping the key's
position when it is already present.  This is the observable behaviour
of Go map assignment `m[k] = v`. -/
def upsert (k v : Str) : List (Str × Str) → List (Str × Str)
  | [] => [(k, v)]
  | (k₁, v₁) :: rest =>
    if k = k₁ then (k, v) :: rest else (k₁, v₁) :: upsert k v rest

/-- Look a key up in an association list; models Go map indexing. -/
def lookup (k : Str) : List (Str × Str) → Option Str
  | [] => none
  | (k₁, v₁) :: rest => if k = k₁ then some v₁ else lookup k rest

/-- Model of the `Request` struct of src/main.go (lines 374-383).  Go
zero values: empty strings, nil map/slice, false booleans.  `Body` is a
`[]byte` that `parse` never assigns, modelled as a `Str`. -/
structure Request where
  Protocol : Str := []
  Method : Str := []
  Path : Str := []
  Headers : List (Str × Str) := []
  wroteProtocol : Bool := false
  wroteHeaders : Bool := false
  Body : Str := []
  done : Bool := false
deriving DecidableEq, Repr

/-- The two `fmt.Errorf` messages `parse` can produce. -/
inductive ParseError where
  | protocolLineNotValid
  | invalidHeader
deriving DecidableEq, Repr

/-- Model of `Request.parse` (src/main.go lines 386-427).  The Go method
mutates the receiver and returns an `error`; the model returns the
updated request and an optional error, with the request unchanged
whenever the error is `some _`.
The header branch matches `strings.SplitN(line, ": ", 2)` producing
exactly 2 parts, i.e. the separator occurring (`splitFirstCS` hitting
`some`); otherwise `SplitN` yields the 1-element `[line]` and the Go
code returns the `invalid header` error. -/
def Request.parse (r : Request) (line : Str) : Request × Option ParseError :=
  if line.length = 0 then
    ({ r with wroteHeaders := true, done := true }, none)
  else if r.wroteProtocol = false then
    match splitCh ' ' line with
    | [m, p, v] =>
      ({ r with Method := m, Path := p, Protocol := v, wroteProtocol := true }, none)
    | _ => (r, some .protocolLineNotValid)
  else if r.wroteHeaders = false then
    match splitFirstCS line with
    | some (name, value) =>
      ({ r with Headers := upsert (lowerStr name) (lowerStr value) r.Headers }, none)
    | none => (r, some .invalidHeader)
  else
    (r, none)

/-- The request `handleConnection_v5` starts from: `new(Request)` with
`Headers` set to an empty map. -/
def initReq : Request := {}

/-- Repeatedly call `parse` on the same request, one line at a time, in
order.  Matches a caller that keeps invoking `req.parse(line)` on the
same receiver: on an error the Go receiver is left unchanged, which is
exactly what the model's `parse` returns. -/
def parseAll (r : Request) : List Str → Request
  | [] => r
  | l :: ls => parseAll (r.parse l).1 ls

/-- Model of Go `strconv.Itoa` on a natural number (the code only ever
converts `len(dataToWrite)`, a non-negative length). -/
def itoa (n : Nat) : Str := Nat.toDigits 10 n

/-- The CRLF line terminator. -/
def crlf : Str := ['\r', '\n']

/-- Model of the success-response buffer built in `handleConnection_v4`
(src/main.go lines 278-288) and `handleConnection_v5` (lines 352-360):
status line, a single `Content-Length` header holding the exact byte
length of the body, a blank line, then the raw body bytes. -/
def encodeResponse (body : Str) : Str :=
  "HTTP/1.1 200 OK".toList ++ crlf
    ++ "Content-Length: ".toList ++ itoa body.length ++ crlf
    ++ crlf
    ++ body

/-- The 404 buffer built in `handleConnection_v5` (lines 339-343). -/
def notFoundBytes : Str :=
  "HTTP/1.1 404 Not Found".toList ++ crlf ++ "Content-Length: 0".toList ++ crlf ++ crlf

/-- The fixed body `handleConnection_v5` serves on `GET /`. -/
def gopherBody : Str := "Gopher!!".toList

/-- The bytes `handleConnection_v5` writes for a given parsed request:
404 unless the request is `GET /`, otherwise the 200 response carrying
`Gopher!!` (lines 338-360). -/
def responseFor (r : Request) : Str :=
  if r.Path ≠ "/".toList ∨ r.Method ≠ "GET".toList then notFoundBytes
  else encodeResponse gopherBody

/-- Outcome of one run of `handleConnection_v5` over the lines the
scanner produced before EOF: either the connection was closed on a
parse error with nothing written, or a response buffer was written for
the final request state. -/
inductive V5Result where
  | closedOnParseError : V5Result
  | responded : Str → Request → V5Result
deriving DecidableEq, Repr

/-- Whether a run ended with response bytes written on the connection. -/
def V5Result.isResponded : V5Result → Bool
  | .closedOnParseError => false
  | .responded _ _ => true

/-- Model of the scan loop and response phase of `handleConnection_v5`
(src/main.go lines 302-372): feed each scanned line to `parse`; on a
parse error close the connection and stop; stop scanning once
`req.done`; when the lines run out (EOF) or `done` is hit, fall through
and write the response chosen by `responseFor`. -/
def runV5 (r : Request) : List Str → V5Result
  | [] => .responded (responseFor r) r
  | l :: ls =>
    match r.parse l with
    | (_, some _) => .closedOnParseError
    | (r₁, none) => if r₁.done then .responded (responseFor r₁) r₁ else runV5 r₁ ls

/-- Split a byte sequence on every CRLF occurrence (leftmost-first,
non-overlapping), matching `strings.Split(s, "\r\n")`. -/
def splitAllCRLF : Str → List Str
  | '\r' :: '\n' :: rest => [] :: splitAllCRLF rest
  | [] => [[]]
  | c :: rest =>
    match splitAllCRLF rest with
    | [] => [[c]]
    | r :: rs => (c :: r) :: rs

/-- Locate the first blank-line boundary `"\r\n\r\n"` in a byte
sequence: the header section before it and the raw bytes after it. -/
def splitFirstBlank : Str → Option (Str × Str)
  | '\r' :: '\n' :: '\r' :: '\n' :: rest => some ([], rest)
  | [] => none
  | c :: rest => (splitFirstBlank rest).map fun p => (c :: p.1, p.2)

/-- Read a non-empty all-decimal-digit string as a natural number;
`none` otherwise. -/
def digitsToNat (s : Str) : Option Nat :=
  if s ≠ [] ∧ s.all fun c => '0' ≤ c ∧ c ≤ '9' then
    some (s.foldl (fun n c => n * 10 + (c.toNat - '0'.toNat)) 0)
  else none

/-- Modelled from the spec: response-side re-parsing, which src/main.go
does not contain (its parser only handles requests and skips the body).
Per the spec, the equivalent parsing rules split the wire bytes at the
first blank-line boundary, drive the line parser over the header-section
lines followed by the terminating zero-length line, and then read
exactly `content-length` raw bytes as the body.  Header lines containing
a literal `"\r\n\r\n"` are outside this model's scope. -/
def decodeResponse (bytes : Str) : Option (Request × Str) :=
  match splitFirstBlank bytes with
  | none => none
  | some (head, rest) =>
    let r := parseAll initReq (splitAllCRLF head ++ [[]])
    match lookup "content-length".toList r.Headers with
    | some v =>
      match digitsToNat v with
      | some n => some (r, rest.take n)
      | none => none
    | none => some (r, [])

theorem parse_empty_line (r : Request) :
    r.parse [] = ({ r with wroteHeaders := true, done := true }, none) := rfl

theorem parse_Body (r : Request) (l : Str) : (r.parse l).1.Body = r.Body := by
  unfold Request.parse
  repeat' split
  all_goals rfl

theorem parse_wroteHeaders_mono (r : Request) (l : Str) (h : r.wroteHeaders = true) :
    (r.parse l).1.wroteHeaders = true := by
  unfold Request.parse
  repeat' split
  all_goals simp_all

theorem parse_wroteHeaders_trigger (r : Request) (l : Str)
    (h : (r.parse l).1.wroteHeaders = true) : r.wroteHeaders = true ∨ l = [] := by
  unfold Request.parse at h
  by_cases hl : l.length = 0
  · exact Or.inr (List.length_eq_zero.mp hl)
  · rw [if_neg hl] at h
    left
    revert h
    repeat' split
    all_goals simp_all

theorem parse_Headers_of_no_protocol (r : Request) (l : Str)
    (h : r.wroteProtocol = false) : (r.parse l).1.Headers = r.Headers := by
  unfold Request.parse
  repeat' split
  all_goals simp_all

/-- Invariant maintained by `parse` from the fresh request onward:
`done` implies the headers were terminated, and no header entry exists
before the start line was parsed. -/
def ReachInv (r : Request) : Prop :=
  (r.done = true → r.wroteHeaders = true) ∧ (r.wroteProtocol = false → r.Headers = [])

theorem reachInv_init : ReachInv initReq := by
  constructor <;> intro h <;> simp [initReq] at h ⊢

theorem reachInv_step (r : Request) (l : Str) (h : ReachInv r) : ReachInv (r.parse l).1 := by
  obtain ⟨h₁, h₂⟩ := h
  constructor <;> unfold Request.parse <;> repeat' split
  all_goals simp_all

theorem reachInv_parseAll (r : Request) (ls : List Str) (h : ReachInv r) :
    ReachInv (parseAll r ls) := by
  induction ls generalizing r with
  | nil => exact h
  | cons l ls ih => exact ih _ (reachInv_step r l h)

theorem parseAll_Headers_of_no_protocol (ls : List Str)
    (h : (parseAll initReq ls).wroteProtocol = false) : (parseAll initReq ls).Headers = [] :=
  (reachInv_parseAll initReq ls reachInv_init).2 h

theorem parseAll_wroteHeaders_of_done (ls : List Str)
    (h : (parseAll initReq ls).done = true) : (parseAll initReq ls).wroteHeaders = true :=
  (reachInv_parseAll initReq ls reachInv_init).1 h

theorem splitFirstCS_eq_none_iff (s : Str) :
    splitFirstCS s = none ↔ ∀ a b, s ≠ a ++ ':' :: ' ' :: b := by
  induction s with
  | nil =>
    simp only [splitFirstCS, true_iff]
    intro a b hab
    have := congrArg List.length hab
    simp [List.length_append] at this
    omega
  | cons c t ih =>
    cases t with
    | nil =>
      simp only [splitFirstCS, true_iff]
      intro a b hab
      have := congrArg List.length hab
      simp [List.length_append] at this
      omega
    | cons c₂ rest =>
      by_cases hc : c = ':' ∧ c₂ = ' '
      · obtain ⟨rfl, rfl⟩ := hc
        simp only [splitFirstCS, if_pos (And.intro rfl rfl)]
        constructor
        · intro h; cases h
        · intro h; exact absurd rfl (h [] rest)
      · rw [show splitFirstCS (c :: c₂ :: rest)
              = (splitFirstCS (c₂ :: rest)).map (fun p => (c :: p.1, p.2)) from by
            simp only [splitFirstCS, if_neg hc]]
        rw [Option.map_eq_none', ih]
        constructor
        · intro h a b hab
          cases a with
          | nil =>
            simp only [List.nil_append, List.cons.injEq] at hab
            exact hc ⟨hab.1, hab.2.1⟩
          | cons x xs =>
            simp only [List.cons_append, List.cons.injEq] at hab
            exact h xs b hab.2
        · intro h a b hab
          exact h (c :: a) b (by simp [hab])

theorem splitFirstCS_append (a b : Str) :
    (∀ x y, a ≠ x ++ ':' :: ' ' :: y) → splitFirstCS (a ++ ':' :: ' ' :: b) = some (a, b) := by
  induction a with
  | nil =>
    intro _
    simp [splitFirstCS]
  | cons x xs ih =>
    intro h
    have hxs : ∀ u w, xs ≠ u ++ ':' :: ' ' :: w := by
      intro u w hh
      exact h (x :: u) w (by simp [hh])
    cases xs with
    | nil =>
      have hne : ¬(x = ':' ∧ (':' : Char) = ' ') := by
        rintro ⟨-, h2⟩
        exact absurd h2 (by decide)
      show splitFirstCS (x :: ':' :: ' ' :: b) = some ([x], b)
      rw [show splitFirstCS (x :: ':' :: ' ' :: b)
            = (splitFirstCS (':' :: ' ' :: b)).map (fun p => (x :: p.1, p.2)) from by
          simp only [splitFirstCS, if_neg hne]]
      rw [show splitFirstCS (':' :: ' ' :: b) = some ([], b) from by simp [splitFirstCS]]
      rfl
    | cons y ys =>
      have hne : ¬(x = ':' ∧ y = ' ') := by
        rintro ⟨rfl, rfl⟩
        exact h [] ys rfl
      show splitFirstCS (x :: (y :: ys) ++ ':' :: ' ' :: b) = some (x :: y :: ys, b)
      rw [show splitFirstCS (x :: (y :: ys) ++ ':' :: ' ' :: b)
            = (splitFirstCS ((y :: ys) ++ ':' :: ' ' :: b)).map (fun p => (x :: p.1, p.2)) from by
          simp only [List.cons_append, splitFirstCS, if_neg hne, List.append_eq]]
      rw [ih hxs]
      rfl

theorem lookup_upsert_self (k v : Str) (hs : List (Str × Str)) :
    lookup k (upsert k v hs) = some v := by
  induction hs with
  | nil => simp [upsert, lookup]
  | cons p t ih =>
    obtain ⟨k₁, v₁⟩ := p
    by_cases hk : k = k₁ <;> simp [upsert, lookup, hk, ih]

theorem lookup_upsert_ne (k k₂ v : Str) (hs : List (Str × Str)) (h : k ≠ k₂) :
    lookup k (upsert k₂ v hs) = lookup k hs := by
  induction hs with
  | nil => simp [upsert, lookup, h]
  | cons p t ih =>
    obtain ⟨k₁, v₁⟩ := p
    by_cases hk : k₂ = k₁
    · subst hk
      simp [upsert, lookup, h]
    · by_cases hk₁ : k = k₁ <;> simp [upsert, lookup, hk, hk₁, ih]

theorem mem_upsert_keys (x k v : Str) (hs : List (Str × Str)) :
    x ∈ (upsert k v hs).map Prod.fst ↔ x = k ∨ x ∈ hs.map Prod.fst := by
  induction hs with
  | nil => simp [upsert]
  | cons p t ih =>
    obtain ⟨k₁, v₁⟩ := p
    by_cases hk : k = k₁
    · subst hk
      simp [upsert]
    · simp [upsert, hk, ih]
      tauto

theorem nodup_upsert_keys (k v : Str) (hs : List (Str × Str))
    (h : (hs.map Prod.fst).Nodup) : ((upsert k v hs).map Prod.fst).Nodup := by
  induction hs with
  | nil => simp [upsert]
  | cons p t ih =>
    obtain ⟨k₁, v₁⟩ := p
    simp only [List.map_cons, List.nodup_cons] at h
    by_cases hk : k = k₁
    · subst hk
      simpa [upsert] using h
    · simp only [upsert, if_neg hk, List.map_cons, List.nodup_cons]
      refine ⟨fun hmem => ?_, ih h.2⟩
      rcases (mem_upsert_keys k₁ k v t).mp hmem with h₁ | h₁
      · exact hk h₁.symm
      · exact h.1 h₁

theorem length_upsert_of_mem (k v : Str) (hs : List (Str × Str))
    (h : lookup k hs ≠ none) : (upsert k v hs).length = hs.length := by
  induction hs with
  | nil => simp [lookup] at h
  | cons p t ih =>
    obtain ⟨k₁, v₁⟩ := p
    by_cases hk : k = k₁
    · simp [upsert, hk]
    · simp only [lookup, if_neg hk] at h
      simp [upsert, hk, ih h]

/-- The stored (lower-cased) key of a header line, `[]` when the line
has no `": "` separator. -/
def headerName (h : Str) : Str :=
  match splitFirstCS h with
  | some (n, _) => lowerStr n
  | none => []

/-- The stored (lower-cased) value of a header line, `[]` when the line
has no `": "` separator. -/
def headerVal (h : Str) : Str :=
  match splitFirstCS h with
  | some (_, w) => lowerStr w
  | none => []

/-- The effect of one successfully parsed header line on the header
map. -/
def addHeader (hs : List (Str × Str)) (h : Str) : List (Str × Str) :=
  match splitFirstCS h with
  | some (n, w) => upsert (lowerStr n) (lowerStr w) hs
  | none => hs

theorem splitCh_ne_nil_of_three (line : Str) (m p v : Str)
    (h : splitCh ' ' line = [m, p, v]) : line ≠ [] := by
  intro hl
  subst hl
  simp [splitCh] at h

theorem parse_start_line (r : Request) (line m p v : Str)
    (h0 : r.wroteProtocol = false) (hs : splitCh ' ' line = [m, p, v]) :
    r.parse line
      = ({ r with Method := m, Path := p, Protocol := v, wroteProtocol := true }, none) := by
  have hne : line ≠ [] := splitCh_ne_nil_of_three line m p v hs
  unfold Request.parse
  rw [if_neg (by simpa using hne), if_pos h0, hs]

theorem parse_header_line (r : Request) (line n w : Str)
    (hp : r.wroteProtocol = true) (hh : r.wroteHeaders = false)
    (hs : splitFirstCS line = some (n, w)) :
    r.parse line
      = ({ r with Headers := upsert (lowerStr n) (lowerStr w) r.Headers }, none) := by
  have hne : line ≠ [] := by
    intro hl
    subst hl
    simp [splitFirstCS] at hs
  unfold Request.parse
  rw [if_neg (by simpa using hne), if_neg (by simp [hp]), if_pos hh, hs]

theorem parse_header_malformed (r : Request) (line : Str)
    (hp : r.wroteProtocol = true) (hh : r.wroteHeaders = false)
    (hne : line ≠ []) (hs : splitFirstCS line = none) :
    r.parse line = (r, some .invalidHeader) := by
  unfold Request.parse
  rw [if_neg (by simpa using hne), if_neg (by simp [hp]), if_pos hh, hs]

theorem parseAll_append (r : Request) (xs ys : List Str) :
    parseAll r (xs ++ ys) = parseAll (parseAll r xs) ys := by
  induction xs generalizing r with
  | nil => rfl
  | cons x xs ih => simp [parseAll, ih]

theorem parseAll_header_phase (hdrs : List Str) (r : Request)
    (hp : r.wroteProtocol = true) (hh : r.wroteHeaders = false)
    (hsep : ∀ h ∈ hdrs, splitFirstCS h ≠ none) :
    parseAll r hdrs = { r with Headers := hdrs.foldl addHeader r.Headers } := by
  induction hdrs generalizing r with
  | nil => rfl
  | cons h hs ih =>
    obtain ⟨n, w, hnw⟩ : ∃ n w, splitFirstCS h = some (n, w) := by
      rcases he : splitFirstCS h with - | p
      · exact absurd he (hsep h (by simp))
      · exact ⟨p.1, p.2, by simp⟩
    show parseAll (r.parse h).1 hs = _
    rw [parse_header_line r h n w hp hh hnw]
    rw [ih _ (by simpa using hp) (by simpa using hh) (fun h' hm => hsep h' (by simp [hm]))]
    simp [List.foldl_cons, addHeader, hnw]

theorem lookup_addHeader_isSome (k : Str) (hs : List (Str × Str)) (h : Str)
    (hk : (lookup k hs).isSome) : (lookup k (addHeader hs h)).isSome := by
  unfold addHeader
  rcases he : splitFirstCS h with - | ⟨n, w⟩
  · exact hk
  · by_cases hkn : k = lowerStr n
    · subst hkn
      simp [lookup_upsert_self]
    · rwa [lookup_upsert_ne _ _ _ _ hkn]

theorem lookup_foldl_isSome (k : Str) (hdrs : List Str) (hs : List (Str × Str))
    (hk : (lookup k hs).isSome) : (lookup k (hdrs.foldl addHeader hs)).isSome := by
  induction hdrs generalizing hs with
  | nil => exact hk
  | cons h t ih => exact ih _ (lookup_addHeader_isSome k hs h hk)

theorem lookup_addHeader_self (h : Str) (hs : List (Str × Str)) (n w : Str)
    (hnw : splitFirstCS h = some (n, w)) :
    lookup (headerName h) (addHeader hs h) = some (headerVal h) := by
  simp [headerName, headerVal, addHeader, hnw, lookup_upsert_self]

theorem lookup_foldl_frame (k : Str) (hdrs : List Str) (hs : List (Str × Str))
    (hne : ∀ h ∈ hdrs, headerName h ≠ k) :
    lookup k (hdrs.foldl addHeader hs) = lookup k hs := by
  induction hdrs generalizing hs with
  | nil => rfl
  | cons h t ih =>
    rw [List.foldl_cons, ih _ (fun h' hm => hne h' (by simp [hm]))]
    unfold addHeader
    rcases he : splitFirstCS h with - | ⟨n, w⟩
    · rfl
    · refine lookup_upsert_ne _ _ _ _ fun hk => ?_
      exact hne h (by simp) (by simp [headerName, he, hk])

theorem lookup_foldl_mem (hdrs : List Str) (hs : List (Str × Str)) (h : Str)
    (hm : h ∈ hdrs) (hsep : splitFirstCS h ≠ none) :
    (lookup (headerName h) (hdrs.foldl addHeader hs)).isSome := by
  induction hdrs generalizing hs with
  | nil => simp at hm
  | cons h₀ t ih =>
    rcases List.mem_cons.mp hm with rfl | hm
    · obtain ⟨n, w, hnw⟩ : ∃ n w, splitFirstCS h = some (n, w) := by
        rcases he : splitFirstCS h with - | p
        · exact absurd he hsep
        · exact ⟨p.1, p.2, by simp⟩
      rw [List.foldl_cons]
      exact lookup_foldl_isSome _ t _ (by simp [lookup_addHeader_self h hs n w hnw])
    · exact ih _ hm

theorem lookup_foldl_nodup (hdrs : List Str) (hs : List (Str × Str)) (h : Str)
    (hnd : hdrs.Pairwise fun h₁ h₂ => headerName h₁ ≠ headerName h₂)
    (hm : h ∈ hdrs) (hsep : splitFirstCS h ≠ none) :
    lookup (headerName h) (hdrs.foldl addHeader hs) = some (headerVal h) := by
  induction hdrs generalizing hs with
  | nil => simp at hm
  | cons h₀ t ih =>
    obtain ⟨hnd₀, hndt⟩ := List.pairwise_cons.mp hnd
    rcases List.mem_cons.mp hm with rfl | hm
    · obtain ⟨n, w, hnw⟩ : ∃ n w, splitFirstCS h = some (n, w) := by
        rcases he : splitFirstCS h with - | p
        · exact absurd he hsep
        · exact ⟨p.1, p.2, by simp⟩
      rw [List.foldl_cons,
        lookup_foldl_frame _ t _ (fun h' hm' => (hnd₀ h' hm').symm)]
      exact lookup_addHeader_self h hs n w hnw
    · exact ih _ hndt hm

theorem request_flags_eta (q : Request) (h1 : q.wroteHeaders = true) (h2 : q.done = true) :
    ({ q with wroteHeaders := true, done := true } : Request) = q := by
  cases q
  simp_all

/-- Claim C2 counterexample: a zero-length line presented to the fresh
request (start line not yet parsed) does NOT produce an error; the
zero-length check precedes the start-line rule, so the parser returns
`nil`, marks the headers terminated and the request done, while
`wroteProtocol` stays false. -/
theorem empty_line_before_start_counterexample :
    initReq.wroteProtocol = false ∧
    (initReq.parse []).2 = none ∧
    (initReq.parse []).1.done = true ∧
    (initReq.parse []).1.wroteHeaders = true ∧
    (initReq.parse []).1.wroteProtocol = false := by decide

/-- Claim C2 (amended): a zero-length line presented while the start
line has not yet been parsed is treated by the blank-line-terminator
rule, which `parse` checks before the start-line rule: `wroteHeaders`
and `done` are set to true and no error is returned. -/
theorem empty_line_before_start_no_error (r : Request) (_h : r.wroteProtocol = false) :
    r.parse [] = ({ r with wroteHeaders := true, done := true }, none) := parse_empty_line r

/-- Claim C2 (amended) witness at the fresh request. -/
theorem empty_line_before_start_no_error_witness :
    initReq.parse [] = ({ initReq with wroteHeaders := true, done := true }, none) :=
  empty_line_before_start_no_error initReq rfl

/-- Claim C3 counterexample: parsing a request that supplies
`Content-Length: 8` (a content-length greater than 0) and terminates
its headers leaves `done = true` but an absent (empty) `Body` — `parse`
skips body reading entirely, so the claimed iff fails. -/
theorem body_absent_counterexample :
    (parseAll initReq ["POST / HTTP/1.1".toList, "Content-Length: 8".toList, []]).done = true ∧
    lookup "content-length".toList
        (parseAll initReq ["POST / HTTP/1.1".toList, "Content-Length: 8".toList, []]).Headers
      = some "8".toList ∧
    digitsToNat "8".toList = some 8 ∧
    (parseAll initReq ["POST / HTTP/1.1".toList, "Content-Length: 8".toList, []]).Body = [] := by
  decide

/-- Claim C3 (amended): after any sequence of parse calls the Body is
exactly what it started as — `parse` never populates it, so from the
fresh request the Body is always absent, whatever content-length header
was supplied. -/
theorem parse_body_never_populated (r : Request) (lines : List Str) :
    (parseAll r lines).Body = r.Body := by
  induction lines generalizing r with
  | nil => rfl
  | cons l ls ih => exact (ih (r.parse l).1).trans (parse_Body r l)

/-- Claim C5: encoding the 200 response with body `Gopher!!` produces
exactly the claimed wire bytes, the Content-Length value is the exact
byte length 8 of the body with no other headers added, and re-parsing
those bytes with the equivalent rules recovers a content-length entry
of 8 and the body `Gopher!!`. -/
theorem response_roundtrip :
    encodeResponse gopherBody = "HTTP/1.1 200 OK\r\nContent-Length: 8\r\n\r\nGopher!!".toList ∧
    gopherBody.length = 8 ∧
    itoa gopherBody.length = "8".toList ∧
    (decodeResponse (encodeResponse gopherBody)).map
        (fun p => (lookup "content-length".toList p.1.Headers, p.2))
      = some (some "8".toList, gopherBody) ∧
    digitsToNat "8".toList = some 8 := by decide

/-- Claim C6: after every sequence of parse calls from the empty
request, (1) `done` implies `wroteHeaders`; (2) while `wroteProtocol`
is false no header has been stored; (3) `wroteHeaders`, once true,
stays true (so it becomes true at most once), and the only line that
turns it from false to true is a zero-length line. -/
theorem parse_invariants (lines : List Str) (r : Request) (l : Str) :
    ((parseAll initReq lines).done = true → (parseAll initReq lines).wroteHeaders = true) ∧
    ((parseAll initReq lines).wroteProtocol = false → (parseAll initReq lines).Headers = []) ∧
    (r.wroteHeaders = true → (r.parse l).1.wroteHeaders = true) ∧
    ((r.parse l).1.wroteHeaders = true → r.wroteHeaders = true ∨ l = []) :=
  ⟨parseAll_wroteHeaders_of_done lines, parseAll_Headers_of_no_protocol lines,
   parse_wroteHeaders_mono r l, parse_wroteHeaders_trigger r l⟩

/-- Claim C6 witness: the invariants applied at concrete inputs. -/
theorem parse_invariants_witness :
    (parseAll initReq ["GET / HTTP/1.1".toList, []]).wroteHeaders = true ∧
    (parseAll initReq ["bad".toList]).Headers = [] ∧
    (({ wroteHeaders := true } : Request).parse "Host: x".toList).1.wroteHeaders = true ∧
    (initReq.wroteHeaders = true ∨ ([] : Str) = []) :=
  ⟨(parse_invariants ["GET / HTTP/1.1".toList, []] initReq []).1 (by decide),
   (parse_invariants ["bad".toList] initReq []).2.1 (by decide),
   (parse_invariants [] { wroteHeaders := true } "Host: x".toList).2.2.1 (by decide),
   (parse_invariants [] initReq []).2.2.2 (by decide)⟩

/-- Claim C7: a non-empty line presented before the start line is
parsed whose single-space split does not have exactly 3 fields is
rejected with the malformed-start-line error, and the request is
returned unchanged. -/
theorem malformed_start_line_rejected (r : Request) (line : Str)
    (h0 : r.wroteProtocol = false) (hne : line ≠ [])
    (h3 : (splitCh ' ' line).length ≠ 3) :
    r.parse line = (r, some .protocolLineNotValid) := by
  unfold Request.parse
  rw [if_neg (by simpa using hne), if_pos h0]
  split
  · rename_i m p v heq
    exact absurd (by simp [heq]) h3
  · rfl

/-- Claim C7 witness: a 2-field and a 4-field start line are rejected
with the request unchanged. -/
theorem malformed_start_line_rejected_witness :
    initReq.parse "GET /".toList = (initReq, some .protocolLineNotValid) ∧
    initReq.parse "GET / HTTP/1.1 extra".toList = (initReq, some .protocolLineNotValid) :=
  ⟨malformed_start_line_rejected initReq _ rfl (by decide) (by decide),
   malformed_start_line_rejected initReq _ rfl (by decide) (by decide)⟩

/-- Claim C10: once a request reachable from the empty request is done
and its start line was parsed, any further `parse` call — empty line or
not — returns no error and leaves the request unchanged. -/
theorem parse_after_done_noop (lines : List Str) (l : Str)
    (hd : (parseAll initReq lines).done = true)
    (hp : (parseAll initReq lines).wroteProtocol = true) :
    (parseAll initReq lines).parse l = (parseAll initReq lines, none) := by
  have hw : (parseAll initReq lines).wroteHeaders = true :=
    parseAll_wroteHeaders_of_done lines hd
  rcases hl : l with - | ⟨c, t⟩
  · rw [parse_empty_line, request_flags_eta _ hw hd]
  · unfold Request.parse
    rw [if_neg (by simp), if_neg (by simp [hp]), if_neg (by simp [hw])]

/-- Claim C10 witness: a completed request ignores both a further
header-looking line and a further empty line. -/
theorem parse_after_done_noop_witness :
    (parseAll initReq ["GET / HTTP/1.1".toList, []]).parse "Host: x".toList
      = (parseAll initReq ["GET / HTTP/1.1".toList, []], none) ∧
    (parseAll initReq ["GET / HTTP/1.1".toList, []]).parse []
      = (parseAll initReq ["GET / HTTP/1.1".toList, []], none) :=
  ⟨parse_after_done_noop _ _ (by decide) (by decide),
   parse_after_done_noop _ _ (by decide) (by decide)⟩

/-- Claim C1: a well-formed input — a start line splitting into exactly
three space-separated fields, header lines each containing `": "`, and a
terminating zero-length line — yields a Request whose Method, Path and
Protocol are the three start-line fields, whose done flag is true, and
whose header map has a lower-cased entry for every header line (exactly
the lower-cased value when the lower-cased names are distinct). -/
theorem wellformed_parse_correct (start m p v : Str) (hdrs : List Str)
    (hstart : splitCh ' ' start = [m, p, v])
    (hsep : ∀ h ∈ hdrs, splitFirstCS h ≠ none) :
    (parseAll initReq (start :: hdrs ++ [[]])).Method = m ∧
    (parseAll initReq (start :: hdrs ++ [[]])).Path = p ∧
    (parseAll initReq (start :: hdrs ++ [[]])).Protocol = v ∧
    (parseAll initReq (start :: hdrs ++ [[]])).done = true ∧
    (∀ h ∈ hdrs,
      (lookup (headerName h) (parseAll initReq (start :: hdrs ++ [[]])).Headers).isSome) ∧
    ((hdrs.Pairwise fun h₁ h₂ => headerName h₁ ≠ headerName h₂) →
      ∀ h ∈ hdrs,
        lookup (headerName h) (parseAll initReq (start :: hdrs ++ [[]])).Headers
          = some (headerVal h)) := by
  have h1 : parseAll initReq (start :: hdrs ++ [[]])
      = ((parseAll { initReq with
                     Method := m, Path := p, Protocol := v, wroteProtocol := true } hdrs).parse
          []).1 := by
    show parseAll (initReq.parse start).1 (hdrs ++ [[]]) = _
    rw [parse_start_line initReq start m p v rfl hstart, parseAll_append]
    rfl
  have h2 : parseAll { initReq with
                       Method := m, Path := p, Protocol := v, wroteProtocol := true } hdrs
      = { initReq with
          Method := m, Path := p, Protocol := v, wroteProtocol := true,
          Headers := hdrs.foldl addHeader [] } := by
    exact parseAll_header_phase hdrs _ rfl rfl hsep
  rw [h1, h2, parse_empty_line]
  refine ⟨rfl, rfl, rfl, rfl, fun h hm => ?_, fun hnd h hm => ?_⟩
  · exact lookup_foldl_mem hdrs [] h hm (hsep h hm)
  · exact lookup_foldl_nodup hdrs [] h hnd hm (hsep h hm)

/-- Claim C1 witness: the concrete well-formed input from the claim. -/
theorem wellformed_parse_correct_witness :
    (parseAll initReq ["GET / HTTP/1.1".toList, "Host: localhost:8080".toList, []]).Method
      = "GET".toList ∧
    (parseAll initReq ["GET / HTTP/1.1".toList, "Host: localhost:8080".toList, []]).Path
      = "/".toList ∧
    (parseAll initReq ["GET / HTTP/1.1".toList, "Host: localhost:8080".toList, []]).Protocol
      = "HTTP/1.1".toList ∧
    (parseAll initReq ["GET / HTTP/1.1".toList, "Host: localhost:8080".toList, []]).done
      = true ∧
    lookup "host".toList
        (parseAll initReq ["GET / HTTP/1.1".toList, "Host: localhost:8080".toList, []]).Headers
      = some "localhost:8080".toList ∧
    (parseAll initReq ["GET / HTTP/1.1".toList, "Host: localhost:8080".toList, []]).Headers
      = [("host".toList, "localhost:8080".toList)] := by
  have h := wellformed_parse_correct "GET / HTTP/1.1".toList "GET".toList "/".toList
      "HTTP/1.1".toList ["Host: localhost:8080".toList] (by decide) (by decide)
  have h6 := h.2.2.2.2.2 (by simp) "Host: localhost:8080".toList (by simp)
  rw [show headerName "Host: localhost:8080".toList = "host".toList from by decide,
    show headerVal "Host: localhost:8080".toList = "localhost:8080".toList from by decide] at h6
  exact ⟨h.1, h.2.1, h.2.2.1, h.2.2.2.1, h6, by decide⟩

/-- Claim C8: in the header phase, a non-empty line not containing the
substring `": "` is rejected with the malformed-header error and the
request unchanged; a line of the form `name ++ ": " ++ value` whose
name part contains no `": "` is split only at that first occurrence and
stored with both name and value lower-cased, the value keeping any
later `": "` occurrences intact. -/
theorem header_separator_semantics (r : Request)
    (hp : r.wroteProtocol = true) (hh : r.wroteHeaders = false) :
    (∀ line, line ≠ [] → (∀ a b, line ≠ a ++ ':' :: ' ' :: b) →
      r.parse line = (r, some .invalidHeader)) ∧
    (∀ a b, (∀ x y, a ≠ x ++ ':' :: ' ' :: y) →
      r.parse (a ++ ':' :: ' ' :: b)
        = ({ r with Headers := upsert (lowerStr a) (lowerStr b) r.Headers }, none)) := by
  constructor
  · intro line hne hno
    exact parse_header_malformed r line hp hh hne ((splitFirstCS_eq_none_iff line).mpr hno)
  · intro a b hno
    exact parse_header_line r _ a b hp hh (splitFirstCS_append a b hno)

/-- Claim C8 witness: a separator-free line errors; a line whose value
itself contains `": "` splits only at the first occurrence and is
stored lower-cased with the value intact. -/
theorem header_separator_semantics_witness :
    ({ wroteProtocol := true } : Request).parse "NoSeparatorHere".toList
      = ({ wroteProtocol := true }, some .invalidHeader) ∧
    ({ wroteProtocol := true } : Request).parse "Host: a: b".toList
      = ({ wroteProtocol := true,
           Headers := [("host".toList, "a: b".toList)] }, none) := by
  have h := header_separator_semantics { wroteProtocol := true } rfl rfl
  constructor
  · exact h.1 _ (by decide) ((splitFirstCS_eq_none_iff _).mp (by decide))
  · have he : "Host: a: b".toList = "Host".toList ++ ':' :: ' ' :: "a: b".toList := by decide
    have h2 := h.2 "Host".toList "a: b".toList ((splitFirstCS_eq_none_iff _).mp (by decide))
    rw [he, h2]
    decide

/-- Claim C9: two header lines with the same lower-cased name parsed in
sequence leave only the last value: the stored value for the shared key
is the lower-cased second value, the keys stay pairwise distinct, and
the second line adds no new entry (the map length equals its length
after the first line alone). -/
theorem duplicate_header_last_wins (r : Request) (n₁ v₁ n₂ v₂ : Str)
    (hp : r.wroteProtocol = true) (hh : r.wroteHeaders = false)
    (hn : lowerStr n₁ = lowerStr n₂)
    (h₁ : ∀ x y, n₁ ≠ x ++ ':' :: ' ' :: y)
    (h₂ : ∀ x y, n₂ ≠ x ++ ':' :: ' ' :: y)
    (hk : (r.Headers.map Prod.fst).Nodup) :
    lookup (lowerStr n₂)
        ((r.parse (n₁ ++ ':' :: ' ' :: v₁)).1.parse (n₂ ++ ':' :: ' ' :: v₂)).1.Headers
      = some (lowerStr v₂) ∧
    ((((r.parse (n₁ ++ ':' :: ' ' :: v₁)).1.parse
        (n₂ ++ ':' :: ' ' :: v₂)).1.Headers.map Prod.fst).Nodup) ∧
    ((r.parse (n₁ ++ ':' :: ' ' :: v₁)).1.parse (n₂ ++ ':' :: ' ' :: v₂)).1.Headers.length
      = (upsert (lowerStr n₁) (lowerStr v₁) r.Headers).length := by
  have e₁ : (r.parse (n₁ ++ ':' :: ' ' :: v₁)).1
      = { r with Headers := upsert (lowerStr n₁) (lowerStr v₁) r.Headers } := by
    rw [parse_header_line r _ n₁ v₁ hp hh (splitFirstCS_append n₁ v₁ h₁)]
  have e₂ : ((r.parse (n₁ ++ ':' :: ' ' :: v₁)).1.parse (n₂ ++ ':' :: ' ' :: v₂)).1
      = { r with Headers := upsert (lowerStr n₂) (lowerStr v₂)
                    (upsert (lowerStr n₁) (lowerStr v₁) r.Headers) } := by
    rw [e₁, parse_header_line { r with Headers := upsert (lowerStr n₁) (lowerStr v₁) r.Headers }
          _ n₂ v₂ hp hh (splitFirstCS_append n₂ v₂ h₂)]
  rw [e₂]
  refine ⟨lookup_upsert_self _ _ _, nodup_upsert_keys _ _ _ (nodup_upsert_keys _ _ _ hk), ?_⟩
  refine length_upsert_of_mem _ _ _ ?_
  rw [← hn, lookup_upsert_self]
  simp

/-- Claim C9 witness: `Content-Length: 1` then `Content-Length: 2`
leave exactly one entry, keyed `content-length` with value `2`. -/
theorem duplicate_header_last_wins_witness :
    lookup (lowerStr "Content-Length".toList)
        ((({ wroteProtocol := true } : Request).parse
            ("Content-Length".toList ++ ':' :: ' ' :: "1".toList)).1.parse
          ("Content-Length".toList ++ ':' :: ' ' :: "2".toList)).1.Headers
      = some (lowerStr "2".toList) ∧
    ((({ wroteProtocol := true } : Request).parse
        ("Content-Length".toList ++ ':' :: ' ' :: "1".toList)).1.parse
      ("Content-Length".toList ++ ':' :: ' ' :: "2".toList)).1.Headers
      = [("content-length".toList, "2".toList)] := by
  have h := duplicate_header_last_wins { wroteProtocol := true }
      "Content-Length".toList "1".toList "Content-Length".toList "2".toList
      rfl rfl rfl
      ((splitFirstCS_eq_none_iff _).mp (by decide))
      ((splitFirstCS_eq_none_iff _).mp (by decide))
      (by decide)
  exact ⟨h.1, by decide⟩

theorem runV5_header_phase (hdrs : List Str) (r : Request)
    (hp : r.wroteProtocol = true) (hh : r.wroteHeaders = false) (hd : r.done = false)
    (hsep : ∀ h ∈ hdrs, splitFirstCS h ≠ none) :
    runV5 r hdrs = .responded (responseFor (parseAll r hdrs)) (parseAll r hdrs) ∧
    (parseAll r hdrs).done = false := by
  induction hdrs generalizing r with
  | nil => exact ⟨rfl, hd⟩
  | cons h t ih =>
    obtain ⟨n, w, hnw⟩ : ∃ n w, splitFirstCS h = some (n, w) := by
      rcases he : splitFirstCS h with - | p
      · exact absurd he (hsep h (by simp))
      · exact ⟨p.1, p.2, by simp⟩
    have e := parse_header_line r h n w hp hh hnw
    have hstep : runV5 r (h :: t) = runV5 (r.parse h).1 t := by
      rw [runV5, e]
      simp [hd]
    have hp₁ : (r.parse h).1.wroteProtocol = true := by rw [e]; exact hp
    have hh₁ : (r.parse h).1.wroteHeaders = false := by rw [e]; exact hh
    have hd₁ : (r.parse h).1.done = false := by rw [e]; exact hd
    have ht := ih _ hp₁ hh₁ hd₁ (fun h' hm => hsep h' (by simp [hm]))
    have hpa : parseAll r (h :: t) = parseAll (r.parse h).1 t := rfl
    exact ⟨by rw [hstep, hpa]; exact ht.1, by rw [hpa]; exact ht.2⟩

/-- Claim C4 counterexample: the input ending at EOF right after the
headers (no blank line ever presented) does not make the handler report
an error; `handleConnection_v5` falls out of the scan loop and writes
the full 200 response even though the request never completed. -/
theorem v5_eof_counterexample :
    runV5 initReq ["GET / HTTP/1.1".toList, "Host: localhost:8080".toList]
      = .responded (encodeResponse gopherBody)
          (parseAll initReq ["GET / HTTP/1.1".toList, "Host: localhost:8080".toList]) ∧
    (parseAll initReq ["GET / HTTP/1.1".toList, "Host: localhost:8080".toList]).done
      = false := by decide

/-- Claim C4 (amended): `handleConnection_v5` has no incomplete-request
detection: when the line stream ends (EOF) before any zero-length line,
with a well-formed start line and separator-containing header lines, the
handler still proceeds to write the response chosen for the partially
parsed request, whose done flag is still false. -/
theorem v5_eof_still_responds (start m p v : Str) (hdrs : List Str)
    (hstart : splitCh ' ' start = [m, p, v])
    (hsep : ∀ h ∈ hdrs, splitFirstCS h ≠ none) :
    runV5 initReq (start :: hdrs)
      = .responded (responseFor (parseAll initReq (start :: hdrs)))
          (parseAll initReq (start :: hdrs)) ∧
    (parseAll initReq (start :: hdrs)).done = false := by
  have e := parse_start_line initReq start m p v rfl hstart
  have hstep : runV5 initReq (start :: hdrs) = runV5 (initReq.parse start).1 hdrs := by
    rw [runV5, e]
    simp [initReq]
  have hp₁ : (initReq.parse start).1.wroteProtocol = true := by rw [e]
  have hh₁ : (initReq.parse start).1.wroteHeaders = false := by rw [e]; rfl
  have hd₁ : (initReq.parse start).1.done = false := by rw [e]; rfl
  have ht := runV5_header_phase hdrs _ hp₁ hh₁ hd₁ hsep
  have hpa : parseAll initReq (start :: hdrs) = parseAll (initReq.parse start).1 hdrs := rfl
  exact ⟨by rw [hstep, hpa]; exact ht.1, by rw [hpa]; exact ht.2⟩

/-- Claim C4 (amended) witness: the concrete headers-only input. -/
theorem v5_eof_still_responds_witness :
    runV5 initReq ["GET / HTTP/1.1".toList, "Host: localhost:8080".toList]
      = .responded
          (responseFor (parseAll initReq
            ["GET / HTTP/1.1".toList, "Host: localhost:8080".toList]))
          (parseAll initReq ["GET / HTTP/1.1".toList, "Host: localhost:8080".toList]) ∧
    (parseAll initReq ["GET / HTTP/1.1".toList, "Host: localhost:8080".toList]).done
      = false :=
  v5_eof_still_responds "GET / HTTP/1.1".toList "GET".toList "/".toList "HTTP/1.1".toList
    ["Host: localhost:8080".toList] (by decide) (by decide)
